import Mathlib

/-!
# Verification of the STL-WebViewer decoder core

Shallow embedding of `public/stl-parser.worker.js` from the repository
Hallous-Yassine/STL-WebViewer, together with theorems settling the frozen
claims about its natural-language specification.

Modelling conventions:
* A raw input buffer (JS `ArrayBuffer` / `Uint8Array`) is a `List Nat`,
  each element a byte value (< 256 for real inputs).
* 32-bit floats are modelled by their IEEE-754 binary32 *bit patterns*
  (`Nat` below `2^32`).  The worker performs no float arithmetic: it only
  moves values, so the binary decoder is modelled as moving 4-byte
  little-endian words (`readTris`).  This word-level view is exact for
  every non-NaN pattern; the real `DataView.getFloat32` +
  `Float32Array`-store pipeline converts float32 → float64 → float32,
  which canonicalizes NaN encodings (ECMA-262 leaves the stored NaN
  encoding implementation-chosen; mainstream engines quiet a signaling
  NaN by setting the top mantissa bit).  The value-level decode
  `parseBinarySTLval` composes the word decode with that
  canonicalization (`canonF32`); the bit-identity claim C9 is settled
  against it, while the bounds/length/triplication claims are
  insensitive to a per-word canonicalization.
* The ASCII decoder stores `parseFloat` of the captured numeric tokens
  into a `Float32Array`.  Since the decoder only moves these values
  (never computes with them) and `parseFloat` composed with float32
  rounding is a deterministic function of the token, the embedding keeps
  the captured token (a `List Char`) as the scalar value; two equal
  tokens yield bit-identical stored floats.
* JS exceptions surface as `Except JsError`; the `onmessage` handler's
  `try`/`catch` corresponds to the `Except` result of `workerDecode`.
-/

set_option maxRecDepth 100000

namespace STLW

/-- JS exceptions that the embedded decoder can raise.  The only throwing
operation reached from `onmessage` outside the sniffer's internal
`try`/`catch` is an out-of-bounds `DataView` read (a JS `RangeError`). -/
inductive JsError where
  | rangeErr : JsError
deriving DecidableEq, Repr

/-- Whitespace class used for the JS regex `\s` and for `String.trim`.
The embedding covers the ASCII whitespace characters (space, tab, LF, VT,
FF, CR); JS additionally includes NBSP, BOM and the Unicode space
separators, which no claim's input exercises. -/
def isWsChar (c : Char) : Bool :=
  c = ' ' || c = '\t' || c = '\n' || c = Char.ofNat 11 || c = Char.ofNat 12 || c = '\r'

/-- ASCII lower-casing, as performed by `String.prototype.toLowerCase` on
the ASCII range (the only range the sniffer's keyword searches depend on). -/
def lowerChars (cs : List Char) : List Char :=
  cs.map Char.toLower

/-- Boolean prefix test on character lists. -/
def prefixB : List Char → List Char → Bool
  | [], _ => true
  | _ :: _, [] => false
  | p :: ps, c :: cs => p = c && prefixB ps cs

/-- Boolean substring test: JS `String.prototype.includes`. -/
def containsTok (hay pat : List Char) : Bool :=
  match hay with
  | [] => prefixB pat []
  | _ :: t => prefixB pat hay || containsTok t pat

/-- Whether a byte is a UTF-8 continuation byte (`0x80`–`0xBF`). -/
def isCont (b : Nat) : Bool := 0x80 ≤ b && b ≤ 0xBF

/-- Strict UTF-8 decoding of a byte list (the behaviour of
`new TextDecoder('utf-8', { fatal: true })`): `none` models the decoder
throwing a `TypeError` on malformed input.  Implements the standard
well-formedness ranges, including the `E0`/`ED`/`F0`/`F4` restrictions
that exclude overlong forms and surrogates. -/
def utf8Decode? : List Nat → Option (List Char)
  | [] => some []
  | b :: rest =>
    if b < 0x80 then
      (utf8Decode? rest).map (Char.ofNat b :: ·)
    else if 0xC2 ≤ b && b ≤ 0xDF then
      match rest with
      | c1 :: rest2 =>
        if isCont c1 then
          (utf8Decode? rest2).map (Char.ofNat ((b - 0xC0) * 64 + (c1 - 0x80)) :: ·)
        else none
      | [] => none
    else if 0xE0 ≤ b && b ≤ 0xEF then
      match rest with
      | c1 :: c2 :: rest3 =>
        if (if b = 0xE0 then 0xA0 ≤ c1 && c1 ≤ 0xBF
            else if b = 0xED then 0x80 ≤ c1 && c1 ≤ 0x9F
            else isCont c1) && isCont c2 then
          (utf8Decode? rest3).map
            (Char.ofNat ((b - 0xE0) * 4096 + (c1 - 0x80) * 64 + (c2 - 0x80)) :: ·)
        else none
      | _ => none
    else if 0xF0 ≤ b && b ≤ 0xF4 then
      match rest with
      | c1 :: c2 :: c3 :: rest4 =>
        if (if b = 0xF0 then 0x90 ≤ c1 && c1 ≤ 0xBF
            else if b = 0xF4 then 0x80 ≤ c1 && c1 ≤ 0x8F
            else isCont c1) && isCont c2 && isCont c3 then
          (utf8Decode? rest4).map
            (Char.ofNat ((b - 0xF0) * 262144 + (c1 - 0x80) * 4096 +
              (c2 - 0x80) * 64 + (c3 - 0x80)) :: ·)
        else none
      | _ => none
    else none

/-- Replacement character U+FFFD. -/
def replChar : Char := Char.ofNat 0xFFFD

/-- Fuel-indexed tolerant UTF-8 decoding; every step consumes at least one
byte, so fuel equal to the byte count never runs out (see `utf8Replace`). -/
def utf8ReplaceF : Nat → List Nat → List Char
  | 0, _ => []
  | _, [] => []
  | fuel + 1, b :: rest =>
    if b < 0x80 then
      Char.ofNat b :: utf8ReplaceF fuel rest
    else if 0xC2 ≤ b && b ≤ 0xDF then
      match rest with
      | c1 :: rest2 =>
        if isCont c1 then
          Char.ofNat ((b - 0xC0) * 64 + (c1 - 0x80)) :: utf8ReplaceF fuel rest2
        else replChar :: utf8ReplaceF fuel rest
      | [] => [replChar]
    else if 0xE0 ≤ b && b ≤ 0xEF then
      match rest with
      | c1 :: c2 :: rest3 =>
        if (if b = 0xE0 then 0xA0 ≤ c1 && c1 ≤ 0xBF
            else if b = 0xED then 0x80 ≤ c1 && c1 ≤ 0x9F
            else isCont c1) && isCont c2 then
          Char.ofNat ((b - 0xE0) * 4096 + (c1 - 0x80) * 64 + (c2 - 0x80)) ::
            utf8ReplaceF fuel rest3
        else replChar :: utf8ReplaceF fuel rest
      | _ => replChar :: utf8ReplaceF fuel rest
    else if 0xF0 ≤ b && b ≤ 0xF4 then
      match rest with
      | c1 :: c2 :: c3 :: rest4 =>
        if (if b = 0xF0 then 0x90 ≤ c1 && c1 ≤ 0xBF
            else if b = 0xF4 then 0x80 ≤ c1 && c1 ≤ 0x8F
            else isCont c1) && isCont c2 && isCont c3 then
          Char.ofNat ((b - 0xF0) * 262144 + (c1 - 0x80) * 4096 +
            (c2 - 0x80) * 64 + (c3 - 0x80)) :: utf8ReplaceF fuel rest4
        else replChar :: utf8ReplaceF fuel rest
      | _ => replChar :: utf8ReplaceF fuel rest
    else replChar :: utf8ReplaceF fuel rest

/-- Tolerant UTF-8 decoding (the behaviour of `new TextDecoder()` /
`{ fatal: false }`): malformed sequences become U+FFFD and decoding
continues.  On an invalid sequence this embedding emits one replacement
character and resumes at the next byte; the WHATWG decoder may group up
to three invalid continuation bytes under a single replacement character,
a difference no claim's input exercises (all are valid ASCII there). -/
def utf8Replace (bytes : List Nat) : List Char :=
  utf8ReplaceF bytes.length bytes

/-- Embedding of `isAsciiSTL` (worker lines 49–66).  The worker decodes
the first 80 bytes with a *fatal* UTF-8 decoder inside `try`/`catch`
(a decode fault yields `false`, i.e. Binary), tests whether the
lower-cased header *contains* the substring `solid`, and — only when the
input is longer than 100 bytes — additionally requires `facet` or
`vertex` (case-sensitive) within the first `min(1000, N)` bytes, decoded
tolerantly. -/
def isAsciiSTL (data : List Nat) : Bool :=
  match utf8Decode? (data.take 80) with
  | none => false
  | some header =>
    let isSolid := containsTok (lowerChars header) "solid".toList
    if isSolid && decide (100 < data.length) then
      let sample := utf8Replace (data.take (min 1000 data.length))
      containsTok sample "facet".toList || containsTok sample "vertex".toList
    else isSolid

/-- Byte list of an ASCII string (each character below `0x80` is its own
UTF-8 byte); used to build concrete inputs. -/
def strBytes (s : String) : List Nat :=
  s.toList.map Char.toNat

example : isAsciiSTL [] = false := by decide
example : isAsciiSTL (strBytes "solid t") = true := by decide
example : isAsciiSTL [0] = false := by decide

/-! ## ASCII decoder (`parseAsciiSTL`, worker lines 68–110)

The worker repeatedly applies the global regex

`facet\s+normal\s+N\s+N\s+N\s+outer\s+loop\s+vertex\s+N\s+N\s+N\s+vertex\s+N\s+N\s+N\s+vertex\s+N\s+N\s+N`

(where `N` is `[-+]?[0-9]*\.?[0-9]+(?:[eE][-+]?[0-9]+)?`) to the decoded
text, i.e. it collects the non-overlapping leftmost matches.  The match
of the pattern at a fixed position is deterministic: `\s+` is followed
only by elements that cannot start with whitespace, so maximal munch is
exact, and for the numeric group the only backtracking choices (whether
`\.?` takes the dot, whether the exponent group matches, and the split
of a digit run between `[0-9]*` and `[0-9]+`) are forced by the input
because the continuation `\s+` (or the end of the whole pattern) can
never succeed on a digit, a dot or an exponent head that the group gave
back.  `numFrom` below implements that deterministic equivalent. -/

/-- Consume the regex fragment `[-+]?` (greedy, which is exact here:
the following element can never match on a sign character). -/
def signPart : List Char → List Char × List Char
  | c :: t => if c = '+' || c = '-' then ([c], t) else ([], c :: t)
  | [] => ([], [])

/-- The tail of the exponent fragment after its `[eE]` head: `[-+]?[0-9]+`,
taken only when at least one digit is present. -/
def expTail (body : List Char) (e : Char) (t : List Char) : List Char × List Char :=
  let s := signPart t
  let C := s.2.takeWhile Char.isDigit
  if C.isEmpty then (body, e :: t)
  else (body ++ e :: (s.1 ++ C), s.2.dropWhile Char.isDigit)

/-- Consume the JS regex fragment `(?:[eE][-+]?[0-9]+)?` after a number
body: greedy, but only taken when a full exponent is present. -/
def expPart (body : List Char) : List Char → List Char × List Char
  | [] => (body, [])
  | e :: t =>
    if e = 'e' || e = 'E' then expTail body e t
    else (body, e :: t)

/-- Consume the regex fragment `[0-9]*\.?[0-9]+`: either a nonempty digit
run, or an optionally-empty digit run, a dot and a nonempty digit run —
the two shapes the backtracking group can consume given that its
continuation (`\s+` or pattern end) never matches a digit or a dot. -/
def bodyPart (cs1 : List Char) : Option (List Char × List Char) :=
  let A := cs1.takeWhile Char.isDigit
  let csA := cs1.dropWhile Char.isDigit
  match csA with
  | '.' :: t =>
    let B := t.takeWhile Char.isDigit
    if B.isEmpty then
      if A.isEmpty then none else some (A, csA)
    else some (A ++ '.' :: B, t.dropWhile Char.isDigit)
  | _ => if A.isEmpty then none else some (A, csA)

/-- Deterministic equivalent of one capture group
`[-+]?[0-9]*\.?[0-9]+(?:[eE][-+]?[0-9]+)?` of the facet regex, in the
context where the group is followed by `\s+` or by the end of the
pattern.  Returns the captured token and the remaining text. -/
def numFrom (cs : List Char) : Option (List Char × List Char) :=
  let s := signPart cs
  match bodyPart s.2 with
  | none => none
  | some p => some (expPart (s.1 ++ p.1) p.2)

/-- Consume the regex fragment `\s+` (one or more whitespace characters,
maximal munch — exact here, see the section comment). -/
def ws1 : List Char → Option (List Char)
  | [] => none
  | c :: t => if isWsChar c then some (t.dropWhile isWsChar) else none

/-- Consume a literal keyword of the regex. -/
def lit (kw : List Char) (cs : List Char) : Option (List Char) :=
  if prefixB kw cs then some (cs.drop kw.length) else none

/-- Keyword followed by mandatory whitespace (`kw\s+`). -/
def kwWs (kw : List Char) (cs : List Char) : Option (List Char) := do
  let r ← lit kw cs
  ws1 r

/-- Numeric capture group followed by mandatory whitespace (`N\s+`). -/
def numWs (cs : List Char) : Option (List Char × List Char) := do
  let p ← numFrom cs
  let r ← ws1 p.2
  pure (p.1, r)

/-- Three numeric capture groups, each followed by mandatory whitespace
(`N\s+N\s+N\s+`). -/
def num3 (cs : List Char) : Option ((List Char × List Char × List Char) × List Char) := do
  let p ← numWs cs
  let q ← numWs p.2
  let s ← numWs q.2
  pure ((p.1, q.1, s.1), s.2)

/-- The last three numeric capture groups of the pattern
(`N\s+N\s+N`, no trailing whitespace after the final group). -/
def num3End (cs : List Char) : Option ((List Char × List Char × List Char) × List Char) := do
  let p ← numWs cs
  let q ← numWs p.2
  let s ← numFrom q.2
  pure ((p.1, q.1, s.1), s.2)

/-- One regex match: the 12 captured numeric tokens (facet normal and the
three vertices, three coordinates each). -/
structure FacetMatch where
  n1 : List Char
  n2 : List Char
  n3 : List Char
  ax : List Char
  ay : List Char
  az : List Char
  bx : List Char
  by' : List Char
  bz : List Char
  cx : List Char
  cy : List Char
  cz : List Char
deriving DecidableEq, Repr

/-- Attempt to match the facet regex at the start of `cs`; on success
return the captures and the text after the match (the regex engine's
`lastIndex` position). -/
def matchFacetAt (cs : List Char) : Option (FacetMatch × List Char) := do
  let r1 ← kwWs "facet".toList cs
  let r2 ← kwWs "normal".toList r1
  let pn ← num3 r2
  let r3 ← kwWs "outer".toList pn.2
  let r4 ← kwWs "loop".toList r3
  let r5 ← kwWs "vertex".toList r4
  let pa ← num3 r5
  let r6 ← kwWs "vertex".toList pa.2
  let pb ← num3 r6
  let r7 ← kwWs "vertex".toList pb.2
  let pc ← num3End r7
  pure (⟨pn.1.1, pn.1.2.1, pn.1.2.2, pa.1.1, pa.1.2.1, pa.1.2.2,
    pb.1.1, pb.1.2.1, pb.1.2.2, pc.1.1, pc.1.2.1, pc.1.2.2⟩, pc.2)

/-- Fuel-indexed scan collecting the non-overlapping leftmost regex
matches: attempt a match at the current position; on success continue
after the match, otherwise advance one character (exactly the behaviour
of `regex.exec` in a loop with the `g` flag).  Every step consumes at
least one character — a match starts with the nonempty literal `facet` —
so fuel equal to the text length never runs out
(`asciiScanF_eq_of_enough_fuel` below). -/
def asciiScanF : Nat → List Char → List FacetMatch
  | 0, _ => []
  | _, [] => []
  | fuel + 1, c :: cs =>
    match matchFacetAt (c :: cs) with
    | some (m, r) => m :: asciiScanF fuel r
    | none => asciiScanF fuel cs

/-- All matches of the facet regex in the text, leftmost, non-overlapping. -/
def asciiScan (text : List Char) : List FacetMatch :=
  asciiScanF text.length text

/-- The nine vertex coordinates a match contributes to `vertices`, in
push order (worker lines 87, 91, 95). -/
def vertsOf (m : FacetMatch) : List (List Char) :=
  [m.ax, m.ay, m.az, m.bx, m.by', m.bz, m.cx, m.cy, m.cz]

/-- The nine normal entries a match contributes to `normals`: the facet
normal repeated once per vertex (worker lines 88, 92, 96). -/
def normsOf (m : FacetMatch) : List (List Char) :=
  [m.n1, m.n2, m.n3, m.n1, m.n2, m.n3, m.n1, m.n2, m.n3]

/-- Concatenate the per-match contributions (the `vertices.push(...)` /
`normals.push(...)` accumulation across the regex loop). -/
def flatVals (f : FacetMatch → List α) : List FacetMatch → List α
  | [] => []
  | m :: ms => f m ++ flatVals f ms

/-- Embedding of `parseAsciiSTL` (worker lines 68–110): decode the whole
buffer tolerantly, collect the regex matches, and accumulate the vertex
and (triplicated) normal tokens.  Total: no input makes it throw. -/
def parseAsciiSTL (bytes : List Nat) : List (List Char) × List (List Char) :=
  let text := utf8Replace bytes
  let ms := asciiScan text
  (flatVals vertsOf ms, flatVals normsOf ms)

example :
    asciiScan ("facet normal 0 0 1 outer loop vertex 0 0 0 vertex 1 0 0 vertex 0 1 0 endloop endfacet").toList
      = [⟨['0'], ['0'], ['1'], ['0'], ['0'], ['0'], ['1'], ['0'], ['0'], ['0'], ['1'], ['0']⟩] := by
  decide

example : asciiScan ("no facets here").toList = [] := by decide

example : numFrom ("-1.5e-3 x").toList = some ("-1.5e-3".toList, " x".toList) := by decide

example : numFrom ("1e zz").toList = some ("1".toList, "e zz".toList) := by decide

/-! ## Binary decoder (`parseBinarySTL`, worker lines 112–172)

`DataView.getUint32`/`getFloat32` throw a `RangeError` when the accessed
4-byte window extends past the buffer; otherwise they read 4 bytes
little-endian.  Reading a float and storing it into a `Float32Array`
preserves the 32-bit pattern, so both reads are modelled by `getU32le`
returning the word value. -/

/-- Read one byte, JS `DataView`-style: out of bounds throws `RangeError`. -/
def getU8 (bytes : List Nat) (i : Nat) : Except JsError Nat :=
  match bytes.get? i with
  | some b => .ok b
  | none => .error .rangeErr

/-- Read a 4-byte little-endian word at offset `i`
(`DataView.getUint32(i, true)`, and the bit pattern read by
`DataView.getFloat32(i, true)`). -/
def getU32le (bytes : List Nat) (i : Nat) : Except JsError Nat := do
  let b0 ← getU8 bytes i
  let b1 ← getU8 bytes (i + 1)
  let b2 ← getU8 bytes (i + 2)
  let b3 ← getU8 bytes (i + 3)
  pure (b0 + 256 * b1 + 65536 * b2 + 16777216 * b3)

/-- The record-reading loop of `parseBinarySTL` (worker lines 132–166):
for each of `t` triangles starting at byte offset `off`, read the normal
(3 words at `off`, `off+4`, `off+8`), then the nine vertex words
(`off+12` … `off+44`), append the vertex words to `vertices` and the
normal repeated three times to `normals`, and advance by 50 bytes (the
2 trailing attribute bytes are skipped without being read).  The values
are kept as the raw words read; the engine's NaN canonicalization on the
way into the `Float32Array` is applied on top by `parseBinarySTLval`. -/
def readTris (bytes : List Nat) : Nat → Nat → Except JsError (List Nat × List Nat)
  | 0, _ => .ok ([], [])
  | t + 1, off => do
    let nx ← getU32le bytes off
    let ny ← getU32le bytes (off + 4)
    let nz ← getU32le bytes (off + 8)
    let v0 ← getU32le bytes (off + 12)
    let v1 ← getU32le bytes (off + 16)
    let v2 ← getU32le bytes (off + 20)
    let v3 ← getU32le bytes (off + 24)
    let v4 ← getU32le bytes (off + 28)
    let v5 ← getU32le bytes (off + 32)
    let v6 ← getU32le bytes (off + 36)
    let v7 ← getU32le bytes (off + 40)
    let v8 ← getU32le bytes (off + 44)
    let rest ← readTris bytes t (off + 50)
    pure (v0 :: v1 :: v2 :: v3 :: v4 :: v5 :: v6 :: v7 :: v8 :: rest.1,
      nx :: ny :: nz :: nx :: ny :: nz :: nx :: ny :: nz :: rest.2)

/-- Embedding of `parseBinarySTL` (worker lines 112–172): read the
triangle count at offset 80 (throws if the buffer is shorter than 84
bytes) and then the `t` 50-byte records starting at offset 84. -/
def parseBinarySTL (bytes : List Nat) : Except JsError (List Nat × List Nat) := do
  let t ← getU32le bytes 80
  readTris bytes t 84

/-- Whether a 32-bit word is an IEEE-754 binary32 NaN encoding
(exponent bits all ones, mantissa nonzero). -/
def isNaNf32 (w : Nat) : Bool :=
  (w / 2 ^ 23) % 256 = 255 && w % 2 ^ 23 ≠ 0

/-- The value-level effect of `DataView.getFloat32` followed by a
`Float32Array` store (float32 → float64 → float32): exact for every
non-NaN pattern; for a NaN, ECMA-262 reads the single NaN Number value
and lets the store pick an implementation-chosen encoding, and the
mainstream engines (x86/ARM float conversion semantics) quiet a
signaling NaN by setting the top mantissa bit while preserving the
payload (`0x7F800001` is stored back as `0x7FC00001`; quiet NaNs pass
through unchanged). -/
def canonF32 (w : Nat) : Nat :=
  if isNaNf32 w then w ||| 2 ^ 22 else w

/-- The binary decode at value level: each word the worker stores into
the output `Float32Array`s passes through the float32→float64→float32
conversion, modelled by canonicalizing every decoded word.  (The word
decode only moves values, so canonicalizing the output buffers equals
canonicalizing at each store.) -/
def parseBinarySTLval (bytes : List Nat) : Except JsError (List Nat × List Nat) :=
  (parseBinarySTL bytes).map fun g => (g.1.map canonF32, g.2.map canonF32)

example : canonF32 2139095041 = 2143289345 := by decide
example : canonF32 2143289345 = 2143289345 := by decide
example : canonF32 1065353216 = 1065353216 := by decide

/-! ## The worker message handler (`onmessage`, worker lines 7–47) -/

/-- Payload of the terminal `complete` message: the two output buffers.
The binary path produces 32-bit words (float bit patterns); the ASCII
path produces the captured numeric tokens (see the header comment). -/
inductive StlData where
  | asciiD (vertices normals : List (List Char))
  | binD (vertices normals : List Nat)
deriving DecidableEq, Repr

/-- The terminal `complete` message (worker lines 30–38): buffers plus
`vertexCount = vertices.length / 3`, `triangleCount = vertices.length / 9`
and the detected format string. -/
structure CompleteMsg where
  payload : StlData
  vertexCount : Nat
  triangleCount : Nat
  format : List Char
deriving DecidableEq, Repr

/-- Embedding of the `onmessage` handler's data flow (worker lines 7–47):
classify the input, run the matching decoder, and either produce the
terminal `complete` message or, when a decoder throws, the terminal
`error` message (modelled by the `Except` error). -/
def workerDecode (bytes : List Nat) : Except JsError CompleteMsg :=
  if isAsciiSTL bytes then
    let g := parseAsciiSTL bytes
    .ok ⟨.asciiD g.1 g.2, g.1.length / 3, g.1.length / 9, "ASCII".toList⟩
  else
    match parseBinarySTL bytes with
    | .ok g => .ok ⟨.binD g.1 g.2, g.1.length / 3, g.1.length / 9, "Binary".toList⟩
    | .error e => .error e

/-- The reported triangle count of a decode, `none` when the decode ends
in the terminal error event. -/
def decodedTriCount (bytes : List Nat) : Option Nat :=
  match workerDecode bytes with
  | .ok m => some m.triangleCount
  | .error _ => none

/-! ## Concrete-input helpers -/

/-- Little-endian 4-byte layout of a 32-bit word. -/
def u32leBytes (w : Nat) : List Nat :=
  [w % 256, w / 256 % 256, w / 65536 % 256, w / 16777216 % 256]

/-- Floor of the base-2 logarithm, fuel-indexed structural recursion
(`fuel ≥ n` always suffices since the argument halves each step). -/
def log2F : Nat → Nat → Nat
  | 0, _ => 0
  | fuel + 1, n => if n ≤ 1 then 0 else log2F fuel (n / 2) + 1

/-- IEEE-754 binary32 bit pattern of a natural number; exact for every
`n < 2 ^ 24` (sign 0, biased exponent `127 + log2 n`, mantissa the bits
of `n` below the leading one).  `f32ofNat 0 = 0x00000000`,
`f32ofNat 1 = 0x3F800000`, `f32ofNat 2 = 0x40000000`. -/
def f32ofNat (n : Nat) : Nat :=
  if n = 0 then 0
  else (127 + log2F n n) * 2 ^ 23 + (n - 2 ^ log2F n n) * 2 ^ (23 - log2F n n)

example : f32ofNat 0 = 0 := by decide
example : f32ofNat 1 = 0x3F800000 := by decide
example : f32ofNat 2 = 0x40000000 := by decide

/-- Little-endian float32 bytes of the natural number `n`. -/
def f32leBytes (n : Nat) : List Nat :=
  u32leBytes (f32ofNat n)

/-- The concrete binary input of the spec's scenario: 80 zero bytes, the
little-endian uint32 count 2, then two 50-byte records with normal
(0,0,1) and vertices (0,0,0),(1,0,0),(0,1,0) resp.
(1,1,0),(1,0,0),(0,1,0); attribute bytes zero. -/
def scenarioBinBytes : List Nat :=
  List.replicate 80 0 ++ u32leBytes 2
    ++ (f32leBytes 0 ++ f32leBytes 0 ++ f32leBytes 1
      ++ f32leBytes 0 ++ f32leBytes 0 ++ f32leBytes 0
      ++ f32leBytes 1 ++ f32leBytes 0 ++ f32leBytes 0
      ++ f32leBytes 0 ++ f32leBytes 1 ++ f32leBytes 0
      ++ [0, 0])
    ++ (f32leBytes 0 ++ f32leBytes 0 ++ f32leBytes 1
      ++ f32leBytes 1 ++ f32leBytes 1 ++ f32leBytes 0
      ++ f32leBytes 1 ++ f32leBytes 0 ++ f32leBytes 0
      ++ f32leBytes 0 ++ f32leBytes 1 ++ f32leBytes 0
      ++ [0, 0])

/-- Expected vertex buffer of the scenario, as float32 bit patterns. -/
def scenarioBinVerts : List Nat :=
  [f32ofNat 0, f32ofNat 0, f32ofNat 0, f32ofNat 1, f32ofNat 0, f32ofNat 0,
    f32ofNat 0, f32ofNat 1, f32ofNat 0, f32ofNat 1, f32ofNat 1, f32ofNat 0,
    f32ofNat 1, f32ofNat 0, f32ofNat 0, f32ofNat 0, f32ofNat 1, f32ofNat 0]

/-- Expected normal buffer of the scenario: (0,0,1) six times. -/
def scenarioBinNorms : List Nat :=
  [f32ofNat 0, f32ofNat 0, f32ofNat 1, f32ofNat 0, f32ofNat 0, f32ofNat 1,
    f32ofNat 0, f32ofNat 0, f32ofNat 1, f32ofNat 0, f32ofNat 0, f32ofNat 1,
    f32ofNat 0, f32ofNat 0, f32ofNat 1, f32ofNat 0, f32ofNat 0, f32ofNat 1]

example :
    workerDecode scenarioBinBytes =
      .ok ⟨.binD scenarioBinVerts scenarioBinNorms, 6, 2, "Binary".toList⟩ := by
  rfl

example : workerDecode [] = .error .rangeErr := by rfl

/-! ## Spec-side definitions

These follow the wording of the specification/claims (not the source);
they exist to compare the code's behaviour against the spec's, and to
state counterexamples. -/

/-- Fuel-indexed whitespace tokenizer (fuel = length always suffices,
every step consumes at least one character). -/
def tokensOfF : Nat → List Char → List (List Char)
  | 0, _ => []
  | _, [] => []
  | fuel + 1, c :: t =>
    if isWsChar c then tokensOfF fuel t
    else (c :: t.takeWhile (fun x => !isWsChar x)) ::
      tokensOfF fuel (t.dropWhile (fun x => !isWsChar x))

/-- Whitespace-separated tokens of a text. -/
def tokensOf (cs : List Char) : List (List Char) :=
  tokensOfF cs.length cs

/-- Fuel-indexed splitting of a token stream into `facet … endfacet`
regions: the token list between each `facet` token and the next
`endfacet` token. -/
def specRegionsF : Nat → List (List Char) → List (List (List Char))
  | 0, _ => []
  | _, [] => []
  | fuel + 1, tok :: rest =>
    if tok = "facet".toList then
      (rest.takeWhile (· ≠ "endfacet".toList)) ::
        specRegionsF fuel ((rest.dropWhile (· ≠ "endfacet".toList)).drop 1)
    else specRegionsF fuel rest

/-- The `facet … endfacet` regions of a text, as token lists.
This follows the claim's wording, not the source. -/
def specRegions (cs : List Char) : List (List (List Char)) :=
  specRegionsF (tokensOf cs).length (tokensOf cs)

/-- A well-formed facet region in the sense of claim C3: it contains
exactly one `normal` keyword and exactly three `vertex` keywords.
This follows the claim's wording, not the source. -/
def specWellFormed (region : List (List Char)) : Bool :=
  region.countP (· = "normal".toList) = 1 && region.countP (· = "vertex".toList) = 3

/-- Number of well-formed `facet … endfacet` regions of a text, in the
sense of claim C3 (spec-side definition, for comparison with the code). -/
def specWellFormedCount (cs : List Char) : Nat :=
  ((specRegions cs).filter specWellFormed).length

/-- Trim leading and trailing whitespace (JS `String.prototype.trim`,
restricted to the ASCII whitespace the claims exercise). -/
def trimWs (cs : List Char) : List Char :=
  ((cs.dropWhile isWsChar).reverse.dropWhile isWsChar).reverse

/-- The progress percent the ASCII decoder posts after `k` matched
facets (worker line 102: `20 + (triangleCount / 100000) * 50`, JS float
division modelled exactly over `ℚ`); it is posted whenever
`k % 10000 = 0` (worker line 101). -/
def asciiProgressValue (k : Nat) : ℚ :=
  20 + ((k : ℚ) / 100000) * 50

/-- The fixed progress percent `onmessage` posts after the chosen parser
returns and before the terminal `complete` message (worker line 27). -/
def postParsePercent : ℚ := 90

/-! ## Binary round-trip encoder (claim C9)

Modelled from the spec: the binary STL layout of section 6 — an 80-byte
header (content ignored), a 4-byte little-endian unsigned triangle
count, then one 50-byte record per triangle: 12-byte normal, 36-byte
vertex triple, 2-byte attribute trailer.  The encoder is not part of the
repository; the claim asks that `parseBinarySTL` invert this layout. -/

/-- One triangle record to encode: normal and vertex words are float32
bit patterns; `a0`, `a1` the two (ignored) attribute bytes. -/
structure BinRecord where
  nx : Nat
  ny : Nat
  nz : Nat
  v0 : Nat
  v1 : Nat
  v2 : Nat
  v3 : Nat
  v4 : Nat
  v5 : Nat
  v6 : Nat
  v7 : Nat
  v8 : Nat
  a0 : Nat
  a1 : Nat
deriving DecidableEq, Repr

/-- The twelve 32-bit words of a record, in file order. -/
def BinRecord.words (r : BinRecord) : List Nat :=
  [r.nx, r.ny, r.nz, r.v0, r.v1, r.v2, r.v3, r.v4, r.v5, r.v6, r.v7, r.v8]

/-- A record's 50-byte encoding. -/
def encRecord (r : BinRecord) : List Nat :=
  (r.words.map u32leBytes).flatten ++ [r.a0, r.a1]

/-- Encoding of a record list in the binary STL layout, with the given
(arbitrary) 80-byte header. -/
def encodeBinarySTL (header : List Nat) (tris : List BinRecord) : List Nat :=
  header ++ u32leBytes tris.length ++ (tris.map encRecord).flatten

/-- The flat vertex buffer a record list denotes (9 words per triangle). -/
def flatRecVerts : List BinRecord → List Nat
  | [] => []
  | r :: rs => r.v0 :: r.v1 :: r.v2 :: r.v3 :: r.v4 :: r.v5 :: r.v6 :: r.v7 :: r.v8 ::
      flatRecVerts rs

/-- The flat normal buffer a record list denotes: each facet normal
repeated three times (once per vertex). -/
def flatRecNorms : List BinRecord → List Nat
  | [] => []
  | r :: rs => r.nx :: r.ny :: r.nz :: r.nx :: r.ny :: r.nz :: r.nx :: r.ny :: r.nz ::
      flatRecNorms rs

/-- All twelve word fields of a record fit in 32 bits. -/
def BinRecord.wordsLT (r : BinRecord) : Prop :=
  r.nx < 2 ^ 32 ∧ r.ny < 2 ^ 32 ∧ r.nz < 2 ^ 32 ∧
  r.v0 < 2 ^ 32 ∧ r.v1 < 2 ^ 32 ∧ r.v2 < 2 ^ 32 ∧ r.v3 < 2 ^ 32 ∧ r.v4 < 2 ^ 32 ∧
  r.v5 < 2 ^ 32 ∧ r.v6 < 2 ^ 32 ∧ r.v7 < 2 ^ 32 ∧ r.v8 < 2 ^ 32

instance (r : BinRecord) : Decidable r.wordsLT := by
  unfold BinRecord.wordsLT
  infer_instance

/-- All twelve word fields of a record are fixed by the engine's NaN
canonicalization (i.e. none is a signaling-NaN encoding). -/
def BinRecord.wordsCanon (r : BinRecord) : Prop :=
  canonF32 r.nx = r.nx ∧ canonF32 r.ny = r.ny ∧ canonF32 r.nz = r.nz ∧
  canonF32 r.v0 = r.v0 ∧ canonF32 r.v1 = r.v1 ∧ canonF32 r.v2 = r.v2 ∧
  canonF32 r.v3 = r.v3 ∧ canonF32 r.v4 = r.v4 ∧ canonF32 r.v5 = r.v5 ∧
  canonF32 r.v6 = r.v6 ∧ canonF32 r.v7 = r.v7 ∧ canonF32 r.v8 = r.v8

instance (r : BinRecord) : Decidable r.wordsCanon := by
  unfold BinRecord.wordsCanon
  infer_instance

/-- A record whose first vertex coordinate is the signaling-NaN pattern
`0x7F800001` (= 2139095041); the engine stores it back quieted as
`0x7FC00001` (= 2143289345). -/
def snanRecord : BinRecord :=
  ⟨0, 0, f32ofNat 1, 2139095041, 0, 0, 0, f32ofNat 1, 0, 0, 0, f32ofNat 1, 0, 0⟩

/-! ## Concrete ASCII scenario texts -/

/-- The spec's malformed-facet scenario: one good facet followed by a
facet block with only two vertex lines. -/
def goodPlusShortTxt : String :=
  "solid t facet normal 0 0 1 outer loop vertex 0 0 0 vertex 1 0 0 vertex 0 1 0 endloop endfacet facet normal 0 0 1 outer loop vertex 0 0 0 vertex 1 0 0 endloop endfacet endsolid t"

/-- A text with a single `facet … endfacet` region that contains four
vertex lines (so the region is not well-formed in the claim's sense). -/
def fourVertexTxt : String :=
  "solid t facet normal 0 0 1 outer loop vertex 0 0 0 vertex 1 0 0 vertex 0 1 0 vertex 5 5 5 endloop endfacet endsolid t"

example : decodedTriCount (strBytes goodPlusShortTxt) = some 1 := by rfl
example : decodedTriCount (strBytes fourVertexTxt) = some 1 := by rfl
example : specWellFormedCount goodPlusShortTxt.toList = 1 := by rfl
example : specWellFormedCount fourVertexTxt.toList = 0 := by rfl

/-! ## Lemmas about the binary decoder -/

theorem ok_bind {ε α β : Type _} (a : α) (f : α → Except ε β) :
    (Except.ok a >>= f) = f a := rfl

theorem error_bind {ε α β : Type _} (e : ε) (f : α → Except ε β) :
    ((Except.error e : Except ε α) >>= f) = .error e := rfl

theorem pure_eq_ok {ε α : Type _} (a : α) : (pure a : Except ε α) = .ok a := rfl

theorem except_bind_ok {ε α β : Type _} (x : Except ε α) (f : α → Except ε β) (b : β) :
    (x >>= f) = .ok b ↔ ∃ a, x = .ok a ∧ f a = .ok b := by
  cases x with
  | ok a => simp [ok_bind]
  | error e => simp [error_bind]

/-- With a single error constructor, anything that is not a success is
`Except.error JsError.rangeErr`. -/
theorem except_not_ok {α : Type _} {x : Except JsError α}
    (h : ¬ ∃ a, x = .ok a) : x = .error .rangeErr := by
  cases x with
  | ok a => exact absurd ⟨a, rfl⟩ h
  | error e => cases e; rfl

theorem getU8_ok_iff (bytes : List Nat) (i : Nat) :
    (∃ b, getU8 bytes i = .ok b) ↔ i < bytes.length := by
  unfold getU8
  cases h : bytes.get? i with
  | some b =>
    simp only [h]
    have := List.get?_eq_some.mp h
    exact ⟨fun _ => this.1, fun _ => ⟨b, rfl⟩⟩
  | none =>
    simp only [h]
    have := List.get?_eq_none.mp h
    constructor
    · rintro ⟨b, hb⟩; exact absurd hb (by simp)
    · intro hi; omega

theorem getU32le_ok_iff (bytes : List Nat) (i : Nat) :
    (∃ w, getU32le bytes i = .ok w) ↔ i + 4 ≤ bytes.length := by
  constructor
  · rintro ⟨w, h⟩
    unfold getU32le at h
    rw [except_bind_ok] at h; obtain ⟨b0, h0, h⟩ := h
    rw [except_bind_ok] at h; obtain ⟨b1, h1, h⟩ := h
    rw [except_bind_ok] at h; obtain ⟨b2, h2, h⟩ := h
    rw [except_bind_ok] at h; obtain ⟨b3, h3, _⟩ := h
    have := (getU8_ok_iff bytes (i + 3)).mp ⟨b3, h3⟩
    omega
  · intro h
    obtain ⟨b0, h0⟩ := (getU8_ok_iff bytes i).mpr (by omega)
    obtain ⟨b1, h1⟩ := (getU8_ok_iff bytes (i + 1)).mpr (by omega)
    obtain ⟨b2, h2⟩ := (getU8_ok_iff bytes (i + 2)).mpr (by omega)
    obtain ⟨b3, h3⟩ := (getU8_ok_iff bytes (i + 3)).mpr (by omega)
    exact ⟨_, by unfold getU32le; rw [h0, ok_bind, h1, ok_bind, h2, ok_bind, h3, ok_bind]; rfl⟩

/-- The record loop succeeds exactly when every byte it actually reads is
in bounds: the last read of record `i` (0-indexed) covers bytes
`off + 50 i + 44 … off + 50 i + 47`, so `t ≥ 1` records need
`off + 50 t − 2` bytes — the final two attribute bytes are never read. -/
theorem readTris_ok_iff (bytes : List Nat) :
    ∀ (t off : Nat),
      (∃ r, readTris bytes t off = .ok r) ↔ (t = 0 ∨ off + 50 * t ≤ bytes.length + 2) := by
  intro t
  induction t with
  | zero => intro off; simp [readTris]
  | succ t ih =>
    intro off
    constructor
    · rintro ⟨r, h⟩
      unfold readTris at h
      rw [except_bind_ok] at h; obtain ⟨nx, hnx, h⟩ := h
      rw [except_bind_ok] at h; obtain ⟨ny, hny, h⟩ := h
      rw [except_bind_ok] at h; obtain ⟨nz, hnz, h⟩ := h
      rw [except_bind_ok] at h; obtain ⟨v0, hv0, h⟩ := h
      rw [except_bind_ok] at h; obtain ⟨v1, hv1, h⟩ := h
      rw [except_bind_ok] at h; obtain ⟨v2, hv2, h⟩ := h
      rw [except_bind_ok] at h; obtain ⟨v3, hv3, h⟩ := h
      rw [except_bind_ok] at h; obtain ⟨v4, hv4, h⟩ := h
      rw [except_bind_ok] at h; obtain ⟨v5, hv5, h⟩ := h
      rw [except_bind_ok] at h; obtain ⟨v6, hv6, h⟩ := h
      rw [except_bind_ok] at h; obtain ⟨v7, hv7, h⟩ := h
      rw [except_bind_ok] at h; obtain ⟨v8, hv8, h⟩ := h
      rw [except_bind_ok] at h; obtain ⟨rest, hrest, _⟩ := h
      have h48 := (getU32le_ok_iff bytes (off + 44)).mp ⟨v8, hv8⟩
      have hr := (ih (off + 50)).mp ⟨rest, hrest⟩
      right; omega
    · intro h
      have h48 : off + 44 + 4 ≤ bytes.length := by omega
      obtain ⟨nx, hnx⟩ := (getU32le_ok_iff bytes off).mpr (by omega)
      obtain ⟨ny, hny⟩ := (getU32le_ok_iff bytes (off + 4)).mpr (by omega)
      obtain ⟨nz, hnz⟩ := (getU32le_ok_iff bytes (off + 8)).mpr (by omega)
      obtain ⟨v0, hv0⟩ := (getU32le_ok_iff bytes (off + 12)).mpr (by omega)
      obtain ⟨v1, hv1⟩ := (getU32le_ok_iff bytes (off + 16)).mpr (by omega)
      obtain ⟨v2, hv2⟩ := (getU32le_ok_iff bytes (off + 20)).mpr (by omega)
      obtain ⟨v3, hv3⟩ := (getU32le_ok_iff bytes (off + 24)).mpr (by omega)
      obtain ⟨v4, hv4⟩ := (getU32le_ok_iff bytes (off + 28)).mpr (by omega)
      obtain ⟨v5, hv5⟩ := (getU32le_ok_iff bytes (off + 32)).mpr (by omega)
      obtain ⟨v6, hv6⟩ := (getU32le_ok_iff bytes (off + 36)).mpr (by omega)
      obtain ⟨v7, hv7⟩ := (getU32le_ok_iff bytes (off + 40)).mpr (by omega)
      obtain ⟨v8, hv8⟩ := (getU32le_ok_iff bytes (off + 44)).mpr (by omega)
      obtain ⟨rest, hrest⟩ := (ih (off + 50)).mpr (by omega)
      refine ⟨(v0 :: v1 :: v2 :: v3 :: v4 :: v5 :: v6 :: v7 :: v8 :: rest.1,
        nx :: ny :: nz :: nx :: ny :: nz :: nx :: ny :: nz :: rest.2), ?_⟩
      unfold readTris
      rw [hnx, ok_bind, hny, ok_bind, hnz, ok_bind, hv0, ok_bind, hv1, ok_bind,
        hv2, ok_bind, hv3, ok_bind, hv4, ok_bind, hv5, ok_bind, hv6, ok_bind,
        hv7, ok_bind, hv8, ok_bind, hrest, ok_bind]
      rfl

/-- Success characterization of `parseBinarySTL` given the declared
triangle count `t` read at offset 80. -/
theorem parseBinary_ok_iff (bytes : List Nat) (t : Nat)
    (ht : getU32le bytes 80 = .ok t) :
    (∃ r, parseBinarySTL bytes = .ok r) ↔ (t = 0 ∨ 84 + 50 * t ≤ bytes.length + 2) := by
  unfold parseBinarySTL
  rw [ht, ok_bind]
  exact readTris_ok_iff bytes t 84

/-! ## The normal-triplication invariant -/

/-- A normals buffer built from one triple per triangle, each repeated
three times (the layout both decoders produce). -/
def tripleBlocks {α : Type _} : List (α × α × α) → List α
  | [] => []
  | (a, b, c) :: l => a :: b :: c :: a :: b :: c :: a :: b :: c :: tripleBlocks l

/-- The triplication invariant of claim C4: within each 9-float block of
the normals buffer, the three 3-float sub-triples are identical. -/
def NormTrip {α : Type _} (n : List α) : Prop :=
  ∀ i < n.length / 9,
    (n.drop (9 * i)).take 3 = (n.drop (9 * i + 3)).take 3 ∧
    (n.drop (9 * i)).take 3 = (n.drop (9 * i + 6)).take 3

instance {α : Type _} [DecidableEq α] (n : List α) : Decidable (NormTrip n) := by
  unfold NormTrip
  infer_instance

theorem tripleBlocks_length {α : Type _} (l : List (α × α × α)) :
    (tripleBlocks l).length = 9 * l.length := by
  induction l with
  | nil => rfl
  | cons p l ih =>
    obtain ⟨a, b, c⟩ := p
    simp only [tripleBlocks, List.length_cons, ih]
    omega

theorem drop_nine_cons {α : Type _} (a b c d e f g h i' : α) (l : List α) (m : Nat) :
    List.drop (m + 9) (a :: b :: c :: d :: e :: f :: g :: h :: i' :: l) = List.drop m l := by
  rw [show m + 9 = 9 + m by omega, ← List.drop_drop]
  rfl

theorem normTrip_tripleBlocks {α : Type _} (l : List (α × α × α)) :
    NormTrip (tripleBlocks l) := by
  induction l with
  | nil => intro i hi; simp [tripleBlocks] at hi
  | cons p l ih =>
    obtain ⟨a, b, c⟩ := p
    intro i hi
    match i with
    | 0 => exact ⟨rfl, rfl⟩
    | j + 1 =>
      have hlen : (tripleBlocks ((a, b, c) :: l)).length = 9 + 9 * l.length := by
        rw [tripleBlocks_length, List.length_cons]; omega
      have hj : j < (tripleBlocks l).length / 9 := by
        rw [tripleBlocks_length]
        rw [hlen] at hi
        omega
      have e1 : 9 * (j + 1) = 9 * j + 9 := by ring
      have e2 : 9 * (j + 1) + 3 = (9 * j + 3) + 9 := by ring
      have e3 : 9 * (j + 1) + 6 = (9 * j + 6) + 9 := by ring
      have hstep := ih j hj
      constructor
      · rw [show tripleBlocks ((a, b, c) :: l) =
          a :: b :: c :: a :: b :: c :: a :: b :: c :: tripleBlocks l from rfl,
          e2, e1, drop_nine_cons, drop_nine_cons]
        exact hstep.1
      · rw [show tripleBlocks ((a, b, c) :: l) =
          a :: b :: c :: a :: b :: c :: a :: b :: c :: tripleBlocks l from rfl,
          e3, e1, drop_nine_cons, drop_nine_cons]
        exact hstep.2

/-- Shape of a successful record read: the vertex buffer has `9 t`
entries and the normals buffer is the per-triangle triplication of `t`
normal triples. -/
theorem readTris_shape (bytes : List Nat) :
    ∀ (t off : Nat) (r : List Nat × List Nat), readTris bytes t off = .ok r →
      ∃ ns : List (Nat × Nat × Nat), ns.length = t ∧ r.2 = tripleBlocks ns ∧
        r.1.length = 9 * t := by
  intro t
  induction t with
  | zero =>
    intro off r h
    simp only [readTris] at h
    obtain rfl : (([], []) : List Nat × List Nat) = r := Except.ok.inj h
    exact ⟨[], rfl, rfl, rfl⟩
  | succ t ih =>
    intro off r h
    unfold readTris at h
    rw [except_bind_ok] at h; obtain ⟨nx, hnx, h⟩ := h
    rw [except_bind_ok] at h; obtain ⟨ny, hny, h⟩ := h
    rw [except_bind_ok] at h; obtain ⟨nz, hnz, h⟩ := h
    rw [except_bind_ok] at h; obtain ⟨v0, hv0, h⟩ := h
    rw [except_bind_ok] at h; obtain ⟨v1, hv1, h⟩ := h
    rw [except_bind_ok] at h; obtain ⟨v2, hv2, h⟩ := h
    rw [except_bind_ok] at h; obtain ⟨v3, hv3, h⟩ := h
    rw [except_bind_ok] at h; obtain ⟨v4, hv4, h⟩ := h
    rw [except_bind_ok] at h; obtain ⟨v5, hv5, h⟩ := h
    rw [except_bind_ok] at h; obtain ⟨v6, hv6, h⟩ := h
    rw [except_bind_ok] at h; obtain ⟨v7, hv7, h⟩ := h
    rw [except_bind_ok] at h; obtain ⟨v8, hv8, h⟩ := h
    rw [except_bind_ok] at h; obtain ⟨rest, hrest, h⟩ := h
    obtain ⟨ns, hlen, hn2, hv1len⟩ := ih (off + 50) rest hrest
    rw [pure_eq_ok] at h
    obtain rfl := Except.ok.inj h
    refine ⟨(nx, ny, nz) :: ns, by simp [hlen], ?_, ?_⟩
    · simp only [tripleBlocks, hn2]
    · simp only [List.length_cons, hv1len]
      omega

/-! ## Shape of the ASCII output buffers -/

theorem flatVals_norms_eq (ms : List FacetMatch) :
    flatVals normsOf ms = tripleBlocks (ms.map fun m => (m.n1, m.n2, m.n3)) := by
  induction ms with
  | nil => rfl
  | cons m ms ih => simp only [flatVals, List.map_cons, tripleBlocks, normsOf, ih]; rfl

theorem flatVals_verts_length (ms : List FacetMatch) :
    (flatVals vertsOf ms).length = 9 * ms.length := by
  induction ms with
  | nil => rfl
  | cons m ms ih =>
    have h9 : (vertsOf m).length = 9 := rfl
    simp only [flatVals, List.length_append, List.length_cons, h9, ih]
    omega

theorem flatVals_norms_length (ms : List FacetMatch) :
    (flatVals normsOf ms).length = 9 * ms.length := by
  rw [flatVals_norms_eq, tripleBlocks_length, List.length_map]

/-! ## Round-trip lemmas (claim C9) -/

/-- The value `getU32le` reconstructs from the little-endian bytes of `w`. -/
def sumBytes (w : Nat) : Nat :=
  w % 256 + 256 * (w / 256 % 256) + 65536 * (w / 65536 % 256) +
    16777216 * (w / 16777216 % 256)

theorem u32le_sum (w : Nat) (hw : w < 2 ^ 32) : sumBytes w = w := by
  unfold sumBytes
  have h : w < 4294967296 := by norm_num at hw; exact hw
  omega

theorem getU8_append_right (a b : List Nat) (i : Nat) :
    getU8 (a ++ b) (a.length + i) = getU8 b i := by
  unfold getU8
  rw [List.get?_append_right (show a.length ≤ a.length + i by omega)]
  congr 2
  omega

theorem getU32le_append_right (a b : List Nat) (i : Nat) :
    getU32le (a ++ b) (a.length + i) = getU32le b i := by
  unfold getU32le
  rw [show a.length + i + 1 = a.length + (i + 1) by omega,
    show a.length + i + 2 = a.length + (i + 2) by omega,
    show a.length + i + 3 = a.length + (i + 3) by omega,
    getU8_append_right, getU8_append_right, getU8_append_right, getU8_append_right]

/-- Reading the twelve words of an encoded record (each word read at its
byte offset `4 j` reconstructs the word, given it fits in 32 bits). -/
theorem encRecord_read (r : BinRecord) (R : List Nat) (hw : r.wordsLT) :
    getU32le (encRecord r ++ R) 0 = .ok r.nx ∧
    getU32le (encRecord r ++ R) 4 = .ok r.ny ∧
    getU32le (encRecord r ++ R) 8 = .ok r.nz ∧
    getU32le (encRecord r ++ R) 12 = .ok r.v0 ∧
    getU32le (encRecord r ++ R) 16 = .ok r.v1 ∧
    getU32le (encRecord r ++ R) 20 = .ok r.v2 ∧
    getU32le (encRecord r ++ R) 24 = .ok r.v3 ∧
    getU32le (encRecord r ++ R) 28 = .ok r.v4 ∧
    getU32le (encRecord r ++ R) 32 = .ok r.v5 ∧
    getU32le (encRecord r ++ R) 36 = .ok r.v6 ∧
    getU32le (encRecord r ++ R) 40 = .ok r.v7 ∧
    getU32le (encRecord r ++ R) 44 = .ok r.v8 := by
  obtain ⟨h1, h2, h3, h4, h5, h6, h7, h8, h9, h10, h11, h12⟩ := hw
  refine ⟨?_, ?_, ?_, ?_, ?_, ?_, ?_, ?_, ?_, ?_, ?_, ?_⟩
  · rw [show getU32le (encRecord r ++ R) 0 = .ok (sumBytes r.nx) from rfl, u32le_sum _ h1]
  · rw [show getU32le (encRecord r ++ R) 4 = .ok (sumBytes r.ny) from rfl, u32le_sum _ h2]
  · rw [show getU32le (encRecord r ++ R) 8 = .ok (sumBytes r.nz) from rfl, u32le_sum _ h3]
  · rw [show getU32le (encRecord r ++ R) 12 = .ok (sumBytes r.v0) from rfl, u32le_sum _ h4]
  · rw [show getU32le (encRecord r ++ R) 16 = .ok (sumBytes r.v1) from rfl, u32le_sum _ h5]
  · rw [show getU32le (encRecord r ++ R) 20 = .ok (sumBytes r.v2) from rfl, u32le_sum _ h6]
  · rw [show getU32le (encRecord r ++ R) 24 = .ok (sumBytes r.v3) from rfl, u32le_sum _ h7]
  · rw [show getU32le (encRecord r ++ R) 28 = .ok (sumBytes r.v4) from rfl, u32le_sum _ h8]
  · rw [show getU32le (encRecord r ++ R) 32 = .ok (sumBytes r.v5) from rfl, u32le_sum _ h9]
  · rw [show getU32le (encRecord r ++ R) 36 = .ok (sumBytes r.v6) from rfl, u32le_sum _ h10]
  · rw [show getU32le (encRecord r ++ R) 40 = .ok (sumBytes r.v7) from rfl, u32le_sum _ h11]
  · rw [show getU32le (encRecord r ++ R) 44 = .ok (sumBytes r.v8) from rfl, u32le_sum _ h12]

theorem encRecord_length (r : BinRecord) : (encRecord r).length = 50 := rfl

/-- Decoding the encoded records, starting right after an arbitrary
prefix, recovers exactly the encoded vertex and normal buffers. -/
theorem readTris_encode (tris : List BinRecord) :
    ∀ pre : List Nat, (∀ r ∈ tris, r.wordsLT) →
      readTris (pre ++ (tris.map encRecord).flatten) tris.length pre.length =
        .ok (flatRecVerts tris, flatRecNorms tris) := by
  induction tris with
  | nil => intro pre _; rfl
  | cons r tris ih =>
    intro pre hw
    have hwr : r.wordsLT := hw r (by simp)
    have hwt : ∀ x ∈ tris, x.wordsLT := fun x hx => hw x (by simp [hx])
    have hflat : ((r :: tris).map encRecord).flatten =
        encRecord r ++ (tris.map encRecord).flatten := by
      simp [List.flatten]
    obtain ⟨e0, e4, e8, e12, e16, e20, e24, e28, e32, e36, e40, e44⟩ :=
      encRecord_read r ((tris.map encRecord).flatten) hwr
    have r0 : getU32le (pre ++ (((r :: tris).map encRecord).flatten)) pre.length = .ok r.nx := by
      rw [hflat]
      have := getU32le_append_right pre (encRecord r ++ (tris.map encRecord).flatten) 0
      rw [Nat.add_zero] at this
      rw [this, e0]
    have rk : ∀ k : Nat,
        getU32le (pre ++ (((r :: tris).map encRecord).flatten)) (pre.length + k) =
          getU32le (encRecord r ++ (tris.map encRecord).flatten) k := by
      intro k
      rw [hflat, getU32le_append_right]
    have hrec : readTris (pre ++ (((r :: tris).map encRecord).flatten)) tris.length
        (pre.length + 50) = .ok (flatRecVerts tris, flatRecNorms tris) := by
      have hpre : pre.length + 50 = (pre ++ encRecord r).length := by
        rw [List.length_append, encRecord_length]
      have hassoc : pre ++ (((r :: tris).map encRecord).flatten) =
          (pre ++ encRecord r) ++ (tris.map encRecord).flatten := by
        rw [hflat, List.append_assoc]
      rw [hpre, hassoc]
      exact ih (pre ++ encRecord r) hwt
    show readTris (pre ++ (((r :: tris).map encRecord).flatten)) (tris.length + 1)
        pre.length = _
    unfold readTris
    rw [r0, ok_bind, rk 4, e4, ok_bind, rk 8, e8, ok_bind, rk 12, e12, ok_bind,
      rk 16, e16, ok_bind, rk 20, e20, ok_bind, rk 24, e24, ok_bind,
      rk 28, e28, ok_bind, rk 32, e32, ok_bind, rk 36, e36, ok_bind,
      rk 40, e40, ok_bind, rk 44, e44, ok_bind, hrec, ok_bind]
    rfl

/-- Round-trip at the `parseBinarySTL` level: decoding an encoded mesh
recovers the encoded buffers bit-identically. -/
theorem parseBinary_encode (header : List Nat) (tris : List BinRecord)
    (hh : header.length = 80) (ht : tris.length < 2 ^ 32)
    (hw : ∀ r ∈ tris, r.wordsLT) :
    parseBinarySTL (encodeBinarySTL header tris) =
      .ok (flatRecVerts tris, flatRecNorms tris) := by
  unfold parseBinarySTL encodeBinarySTL
  have hcnt : getU32le ((header ++ u32leBytes tris.length) ++ (tris.map encRecord).flatten)
      80 = .ok tris.length := by
    rw [List.append_assoc]
    have hsh := getU32le_append_right header
      (u32leBytes tris.length ++ (tris.map encRecord).flatten) 0
    rw [Nat.add_zero, hh] at hsh
    rw [hsh,
      show getU32le (u32leBytes tris.length ++ (tris.map encRecord).flatten) 0 =
        .ok (sumBytes tris.length) from rfl,
      u32le_sum _ ht]
  rw [show header ++ u32leBytes tris.length ++ (tris.map encRecord).flatten =
    (header ++ u32leBytes tris.length) ++ (tris.map encRecord).flatten from rfl,
    hcnt, ok_bind,
    show (84 : Nat) = (header ++ u32leBytes tris.length).length by
      rw [List.length_append, hh]; rfl]
  exact readTris_encode tris (header ++ u32leBytes tris.length) hw

/-! ## Characterization of the sniffer -/

/-- What `isAsciiSTL` actually computes: ASCII iff the first
`min(80, N)` bytes are valid UTF-8, their lower-cased decoding contains
`solid`, and — only when `N > 100` — the first `min(1000, N)` bytes,
decoded tolerantly, contain `facet` or `vertex` (case-sensitively). -/
theorem isAscii_iff (bytes : List Nat) :
    isAsciiSTL bytes = true ↔
      ∃ hdr, utf8Decode? (bytes.take 80) = some hdr ∧
        containsTok (lowerChars hdr) "solid".toList = true ∧
        (100 < bytes.length →
          (containsTok (utf8Replace (bytes.take (min 1000 bytes.length))) "facet".toList = true ∨
            containsTok (utf8Replace (bytes.take (min 1000 bytes.length))) "vertex".toList = true)) := by
  cases h : utf8Decode? (bytes.take 80) with
  | none => simp [isAsciiSTL, h]
  | some hdr =>
    simp only [isAsciiSTL, h, Option.some.injEq]
    by_cases hs : containsTok (lowerChars hdr) "solid".toList = true
    · by_cases hlen : 100 < bytes.length
      · have hcond : (containsTok (lowerChars hdr) "solid".toList &&
            decide (100 < bytes.length)) = true := by
          rw [hs, decide_eq_true hlen]
          rfl
        rw [if_pos hcond]
        constructor
        · intro hres
          rw [Bool.or_eq_true] at hres
          exact ⟨hdr, rfl, hs, fun _ => hres⟩
        · rintro ⟨hdr', heq, _, himp⟩
          cases heq
          rw [Bool.or_eq_true]
          exact himp hlen
      · have hnc : ¬((containsTok (lowerChars hdr) "solid".toList &&
            decide (100 < bytes.length)) = true) := by
          rw [decide_eq_false hlen]
          simp
        rw [if_neg hnc]
        constructor
        · intro h'
          exact ⟨hdr, rfl, h', fun hc => absurd hc hlen⟩
        · rintro ⟨hdr', heq, hc, _⟩
          cases heq
          exact hc
    · have hsf : containsTok (lowerChars hdr) "solid".toList = false := by
        revert hs
        cases containsTok (lowerChars hdr) "solid".toList <;> simp
      have hnc : ¬((containsTok (lowerChars hdr) "solid".toList &&
          decide (100 < bytes.length)) = true) := by
        rw [hsf]
        simp
      rw [if_neg hnc]
      constructor
      · intro h'
        exact absurd h' hs
      · rintro ⟨hdr', heq, hc, _⟩
        cases heq
        exact absurd hc hs

/-- Concrete input for claim C6: 200 bytes whose header contains `solid`
but does not start with it, with `facet` in the sample window. -/
def c6str : String :=
  "x solid facet vertex" ++ String.mk (List.replicate 180 ' ')

/-- Byte form of `c6str`. -/
def c6Bytes : List Nat := strBytes c6str

example : c6Bytes.length = 200 := by decide
example : isAsciiSTL c6Bytes = true := by decide
example : prefixB "solid".toList (trimWs (lowerChars (utf8Replace (c6Bytes.take 80)))) = false := by
  decide

/-! ## The scan fuel never runs out

Every component of the facet matcher consumes at least as many
characters as it returns, a successful match consumes at least one
character, and a failed position advances one character — so running the
scan with fuel equal to the text length is exact.  The lemmas below
certify this (`asciiScanF_fuel`). -/

theorem dropWhile_len_le (p : α → Bool) (l : List α) :
    (l.dropWhile p).length ≤ l.length := by
  induction l with
  | nil => simp
  | cons a l ih =>
    rw [List.dropWhile_cons]
    split
    · exact Nat.le_succ_of_le ih
    · simp

theorem opt_bind_some {α β : Type _} (x : Option α) (f : α → Option β) (b : β) :
    (x >>= f) = some b ↔ ∃ a, x = some a ∧ f a = some b := by
  cases x <;> simp

theorem prefixB_length_le : ∀ p cs : List Char, prefixB p cs = true → p.length ≤ cs.length := by
  intro p
  induction p with
  | nil => intro cs _; simp
  | cons a p ih =>
    intro cs h
    cases cs with
    | nil => exact absurd h (by simp [prefixB])
    | cons c t =>
      simp only [prefixB, Bool.and_eq_true] at h
      have := ih t h.2
      simp only [List.length_cons]
      omega

theorem lit_len {kw cs r : List Char} (h : lit kw cs = some r) :
    r.length + kw.length = cs.length := by
  unfold lit at h
  split at h
  · obtain rfl := Option.some.inj h
    have hle := prefixB_length_le kw cs (by assumption)
    rw [List.length_drop]
    omega
  · exact absurd h (by simp)

theorem ws1_len {cs r : List Char} (h : ws1 cs = some r) : r.length < cs.length := by
  cases cs with
  | nil => exact absurd h (by simp [ws1])
  | cons c t =>
    simp only [ws1] at h
    split at h
    · obtain rfl := Option.some.inj h
      have := dropWhile_len_le isWsChar t
      simp only [List.length_cons]
      omega
    · exact absurd h (by simp)

theorem signPart_len (cs : List Char) : (signPart cs).2.length ≤ cs.length := by
  cases cs with
  | nil => simp [signPart]
  | cons c t =>
    simp only [signPart]
    split
    · simp
    · simp

theorem expTail_len (body : List Char) (e : Char) (t : List Char) :
    (expTail body e t).2.length ≤ t.length + 1 := by
  simp only [expTail]
  split
  · simp
  · have h1 := signPart_len t
    have h2 := dropWhile_len_le Char.isDigit (signPart t).2
    simp only
    omega

theorem expPart_len (body cs : List Char) : (expPart body cs).2.length ≤ cs.length := by
  cases cs with
  | nil => simp [expPart]
  | cons e t =>
    simp only [expPart]
    split
    · have := expTail_len body e t
      simp only [List.length_cons]
      omega
    · simp

theorem bodyPart_len {cs1 : List Char} {p : List Char × List Char}
    (h : bodyPart cs1 = some p) : p.2.length ≤ cs1.length := by
  simp only [bodyPart] at h
  have hA := dropWhile_len_le Char.isDigit cs1
  split at h
  · rename_i t heq
    split at h
    · split at h
      · exact absurd h (by simp)
      · obtain rfl := Option.some.inj h
        exact hA
    · obtain rfl := Option.some.inj h
      have ht : (t.dropWhile Char.isDigit).length ≤ t.length :=
        dropWhile_len_le Char.isDigit t
      have hlen : (List.dropWhile Char.isDigit cs1).length = t.length + 1 := by
        rw [heq]
        rfl
      show (t.dropWhile Char.isDigit).length ≤ cs1.length
      omega
  · split at h
    · exact absurd h (by simp)
    · obtain rfl := Option.some.inj h
      exact hA

theorem numFrom_len {cs : List Char} {p : List Char × List Char}
    (h : numFrom cs = some p) : p.2.length ≤ cs.length := by
  simp only [numFrom] at h
  split at h
  · exact absurd h (by simp)
  · rename_i q hq
    obtain rfl := Option.some.inj h
    have h1 := expPart_len ((signPart cs).1 ++ q.1) q.2
    have h2 := bodyPart_len hq
    have h3 := signPart_len cs
    omega

theorem kwWs_len {kw cs r : List Char} (h : kwWs kw cs = some r) :
    r.length < cs.length := by
  unfold kwWs at h
  rw [opt_bind_some] at h
  obtain ⟨r1, h1, h2⟩ := h
  have := lit_len h1
  have := ws1_len h2
  omega

theorem numWs_len {cs : List Char} {p : List Char × List Char}
    (h : numWs cs = some p) : p.2.length < cs.length := by
  unfold numWs at h
  rw [opt_bind_some] at h
  obtain ⟨q, h1, h⟩ := h
  rw [opt_bind_some] at h
  obtain ⟨r, h2, h3⟩ := h
  obtain rfl := Option.some.inj h3
  have := numFrom_len h1
  have := ws1_len h2
  simp only
  omega

theorem num3_len {cs : List Char}
    {p : (List Char × List Char × List Char) × List Char}
    (h : num3 cs = some p) : p.2.length < cs.length := by
  unfold num3 at h
  rw [opt_bind_some] at h
  obtain ⟨a, h1, h⟩ := h
  rw [opt_bind_some] at h
  obtain ⟨b, h2, h⟩ := h
  rw [opt_bind_some] at h
  obtain ⟨c, h3, h4⟩ := h
  obtain rfl := Option.some.inj h4
  have := numWs_len h1
  have := numWs_len h2
  have := numWs_len h3
  simp only
  omega

theorem num3End_len {cs : List Char}
    {p : (List Char × List Char × List Char) × List Char}
    (h : num3End cs = some p) : p.2.length < cs.length := by
  unfold num3End at h
  rw [opt_bind_some] at h
  obtain ⟨a, h1, h⟩ := h
  rw [opt_bind_some] at h
  obtain ⟨b, h2, h⟩ := h
  rw [opt_bind_some] at h
  obtain ⟨c, h3, h4⟩ := h
  obtain rfl := Option.some.inj h4
  have := numWs_len h1
  have := numWs_len h2
  have := numFrom_len h3
  simp only
  omega

/-- A successful facet match consumes at least one character. -/
theorem matchFacetAt_len {cs : List Char} {p : FacetMatch × List Char}
    (h : matchFacetAt cs = some p) : p.2.length < cs.length := by
  unfold matchFacetAt at h
  rw [opt_bind_some] at h; obtain ⟨r1, h1, h⟩ := h
  rw [opt_bind_some] at h; obtain ⟨r2, h2, h⟩ := h
  rw [opt_bind_some] at h; obtain ⟨pn, h3, h⟩ := h
  rw [opt_bind_some] at h; obtain ⟨r3, h4, h⟩ := h
  rw [opt_bind_some] at h; obtain ⟨r4, h5, h⟩ := h
  rw [opt_bind_some] at h; obtain ⟨r5, h6, h⟩ := h
  rw [opt_bind_some] at h; obtain ⟨pa, h7, h⟩ := h
  rw [opt_bind_some] at h; obtain ⟨r6, h8, h⟩ := h
  rw [opt_bind_some] at h; obtain ⟨pb, h9, h⟩ := h
  rw [opt_bind_some] at h; obtain ⟨r7, h10, h⟩ := h
  rw [opt_bind_some] at h; obtain ⟨pc, h11, h12⟩ := h
  obtain rfl := Option.some.inj h12
  have := kwWs_len h1
  have := kwWs_len h2
  have := num3_len h3
  have := kwWs_len h4
  have := kwWs_len h5
  have := kwWs_len h6
  have := num3_len h7
  have := kwWs_len h8
  have := num3_len h9
  have := kwWs_len h10
  have := num3End_len h11
  simp only
  omega

theorem asciiScanF_nil (fuel : Nat) : asciiScanF fuel [] = [] := by
  cases fuel <;> rfl

/-- Fuel irrelevance: any fuel at least the text length computes the
same match list, so `asciiScan`'s choice `fuel = text.length` is exact. -/
theorem asciiScanF_fuel :
    ∀ (f1 : Nat) (cs : List Char) (f2 : Nat), cs.length ≤ f1 → cs.length ≤ f2 →
      asciiScanF f1 cs = asciiScanF f2 cs := by
  intro f1
  induction f1 with
  | zero =>
    intro cs f2 h1 _
    have : cs = [] := List.length_eq_zero.mp (by omega)
    subst this
    rw [asciiScanF_nil, asciiScanF_nil]
  | succ f1 ih =>
    intro cs f2 h1 h2
    cases cs with
    | nil => rw [asciiScanF_nil, asciiScanF_nil]
    | cons c t =>
      cases f2 with
      | zero => simp at h2
      | succ f2 =>
        show asciiScanF (f1 + 1) (c :: t) = asciiScanF (f2 + 1) (c :: t)
        unfold asciiScanF
        cases hm : matchFacetAt (c :: t) with
        | some p =>
          have hlen := matchFacetAt_len hm
          simp only [List.length_cons] at h1 h2 hlen
          exact congrArg (p.1 :: ·) (ih p.2 f2 (by omega) (by omega))
        | none =>
          simp only [List.length_cons] at h1 h2
          exact ih t f2 (by omega) (by omega)

/-! ## Helper lemmas for the claim theorems -/

/-- Shape of the worker's terminal message on the ASCII path. -/
theorem workerDecode_ascii (bytes : List Nat) (h : isAsciiSTL bytes = true) :
    workerDecode bytes =
      .ok ⟨.asciiD (parseAsciiSTL bytes).1 (parseAsciiSTL bytes).2,
        (parseAsciiSTL bytes).1.length / 3, (parseAsciiSTL bytes).1.length / 9,
        "ASCII".toList⟩ := by
  unfold workerDecode
  rw [if_pos h]

theorem parseAscii_verts_length (bytes : List Nat) :
    (parseAsciiSTL bytes).1.length = 9 * (asciiScan (utf8Replace bytes)).length :=
  flatVals_verts_length _

theorem parseAscii_tri_count (bytes : List Nat) :
    (parseAsciiSTL bytes).1.length / 9 = (asciiScan (utf8Replace bytes)).length := by
  rw [parseAscii_verts_length, Nat.mul_div_cancel_left _ (by norm_num)]

theorem flatRecNorms_eq (tris : List BinRecord) :
    flatRecNorms tris = tripleBlocks (tris.map fun r => (r.nx, r.ny, r.nz)) := by
  induction tris with
  | nil => rfl
  | cons r tris ih => simp only [flatRecNorms, List.map_cons, tripleBlocks, ih]

theorem flatRecVerts_canon (tris : List BinRecord) :
    (∀ r ∈ tris, r.wordsCanon) →
      (flatRecVerts tris).map canonF32 = flatRecVerts tris := by
  induction tris with
  | nil => intro _; rfl
  | cons r tris ih =>
    intro h
    obtain ⟨-, -, -, c4, c5, c6, c7, c8, c9', c10, c11, c12⟩ := h r (List.mem_cons_self r tris)
    simp only [flatRecVerts, List.map_cons, c4, c5, c6, c7, c8, c9', c10, c11, c12]
    rw [ih (fun x hx => h x (List.mem_cons_of_mem r hx))]

theorem flatRecNorms_canon (tris : List BinRecord) :
    (∀ r ∈ tris, r.wordsCanon) →
      (flatRecNorms tris).map canonF32 = flatRecNorms tris := by
  induction tris with
  | nil => intro _; rfl
  | cons r tris ih =>
    intro h
    obtain ⟨c1, c2, c3, -, -, -, -, -, -, -, -, -⟩ := h r (List.mem_cons_self r tris)
    simp only [flatRecNorms, List.map_cons, c1, c2, c3]
    rw [ih (fun x hx => h x (List.mem_cons_of_mem r hx))]

/-! ## Claim theorems -/

/-- Concrete input for claim C1: a binary file declaring one triangle
but providing only 48 of its 50 record bytes (the two missing bytes are
the attribute trailer, which the decoder never reads). -/
def c1Bytes : List Nat :=
  List.replicate 80 0 ++ u32leBytes 1 ++ List.replicate 48 0

/-- Claim C1, counterexample: this input is binary-classified, declares
T = 1 at offset 80, and has length 132 < 84 + 50·T = 134 — so the claim
requires Failure — yet the decode succeeds with the complete one-triangle
mesh, because the two bytes missing are the never-read attribute bytes. -/
theorem C1_counterexample :
    isAsciiSTL c1Bytes = false ∧
    getU32le c1Bytes 80 = .ok 1 ∧
    c1Bytes.length = 132 ∧
    c1Bytes.length < 84 + 50 * 1 ∧
    decodedTriCount c1Bytes = some 1 :=
  ⟨by decide, by rfl, by decide, by decide, by rfl⟩

/-- Claim C1 (amended): the binary decode fails (with the RangeError of
an out-of-bounds DataView read, never a partial Success) iff some byte
it actually reads is missing: when the buffer cannot hold the header and
count (N < 84), or when `N + 2 < 84 + 50 T` for a declared count `T ≥ 1`.
Inputs missing only the final record's two attribute bytes decode
successfully with the complete mesh, so the claim's bound `84 + 50 T` is
off by two; within these bounds no out-of-bounds read ever contributes a
value to the output (every read is bounds-checked and aborts the decode). -/
theorem C1_binary_overrun :
    (∀ bytes : List Nat, bytes.length < 84 →
      parseBinarySTL bytes = .error .rangeErr) ∧
    (∀ (bytes : List Nat) (t : Nat), getU32le bytes 80 = .ok t →
      (1 ≤ t → bytes.length + 2 < 84 + 50 * t →
        parseBinarySTL bytes = .error .rangeErr) ∧
      (84 + 50 * t ≤ bytes.length + 2 → ∃ r, parseBinarySTL bytes = .ok r)) := by
  constructor
  · intro bytes h
    apply except_not_ok
    rintro ⟨r, hr⟩
    unfold parseBinarySTL at hr
    rw [except_bind_ok] at hr
    obtain ⟨t, ht, _⟩ := hr
    have := (getU32le_ok_iff bytes 80).mp ⟨t, ht⟩
    omega
  · intro bytes t ht
    constructor
    · intro h1 h2
      apply except_not_ok
      rintro ⟨r, hr⟩
      have := (parseBinary_ok_iff bytes t ht).mp ⟨r, hr⟩
      omega
    · intro hlen
      exact (parseBinary_ok_iff bytes t ht).mpr (Or.inr hlen)

/-- Witness for C1: a buffer shorter than the header fails, a buffer
truncated inside the vertex data fails, and the 132-byte input missing
only the attribute bytes succeeds. -/
theorem C1_binary_overrun_witness :
    parseBinarySTL (List.replicate 83 0) = .error .rangeErr ∧
    parseBinarySTL (List.replicate 80 0 ++ u32leBytes 1 ++ List.replicate 40 0) =
      .error .rangeErr ∧
    ∃ r, parseBinarySTL c1Bytes = .ok r :=
  ⟨C1_binary_overrun.1 _ (by decide),
    (C1_binary_overrun.2 (List.replicate 80 0 ++ u32leBytes 1 ++ List.replicate 40 0)
      1 (by rfl)).1 (by decide) (by decide),
    (C1_binary_overrun.2 c1Bytes 1 (by rfl)).2 (by decide)⟩

/-- Claim C2: the spec's concrete binary scenario — 80 zero bytes,
count 2, records with normal (0,0,1) and vertices (0,0,0),(1,0,0),(0,1,0)
then (1,1,0),(1,0,0),(0,1,0) — decodes to Success with triangleCount 2,
format Binary, the expected vertex buffer and (0,0,1) triplicated per
vertex in the normal buffer (values as IEEE-754 binary32 bit patterns). -/
theorem C2_binary_scenario :
    workerDecode scenarioBinBytes =
      .ok ⟨.binD scenarioBinVerts scenarioBinNorms, 6, 2, "Binary".toList⟩ := by
  rfl

/-- Claim C3, counterexample: a text whose single `facet … endfacet`
region holds four vertex lines (hence zero well-formed regions in the
claim's sense) is ASCII-classified and decodes with triangleCount 1, not
0 — the regex matches the region's first three vertices. -/
theorem C3_counterexample :
    isAsciiSTL (strBytes fourVertexTxt) = true ∧
    specWellFormedCount fourVertexTxt.toList = 0 ∧
    decodedTriCount (strBytes fourVertexTxt) = some 1 :=
  ⟨by decide, by rfl, by rfl⟩

/-- Claim C3 (amended): for ASCII-classified input the reported
triangleCount equals the number of non-overlapping leftmost matches of
the worker's facet pattern (`facet normal` + 3 numbers + `outer loop` +
three `vertex` + 3-number groups).  A facet region with fewer than three
vertex lines yields no match and is skipped without failing the decode —
one good facet plus one two-vertex facet gives triangleCount 1 — but a
region with extra vertex lines is still matched via its first three
vertices, so `exactly three vertices` in the claim is wrong. -/
theorem C3_count_matches :
    (∀ bytes : List Nat, isAsciiSTL bytes = true →
      decodedTriCount bytes = some ((asciiScan (utf8Replace bytes)).length)) ∧
    isAsciiSTL (strBytes goodPlusShortTxt) = true ∧
    decodedTriCount (strBytes goodPlusShortTxt) = some 1 := by
  refine ⟨?_, by decide, by rfl⟩
  intro bytes h
  unfold decodedTriCount
  rw [workerDecode_ascii bytes h]
  rw [parseAscii_tri_count]

/-- Witness for C3: the general count law applied to a concrete
ASCII-classified input. -/
theorem C3_count_matches_witness :
    decodedTriCount (strBytes "solid t") =
      some ((asciiScan (utf8Replace (strBytes "solid t"))).length) :=
  C3_count_matches.1 (strBytes "solid t") (by decide)

/-- Claim C4: on every successful decode the buffers have equal lengths,
both `9 ×` the triangle count, and within each 9-entry block of the
normals buffer the three 3-entry sub-triples are identical copies of the
facet normal — on the ASCII path for every input, and on the binary path
for every success with declared count `t`. -/
theorem C4_mesh_invariants :
    (∀ bytes : List Nat,
      (parseAsciiSTL bytes).1.length = (parseAsciiSTL bytes).2.length ∧
      (parseAsciiSTL bytes).1.length = 9 * (asciiScan (utf8Replace bytes)).length ∧
      NormTrip (parseAsciiSTL bytes).2) ∧
    (∀ (bytes : List Nat) (t : Nat) (v n : List Nat),
      getU32le bytes 80 = .ok t → parseBinarySTL bytes = .ok (v, n) →
      v.length = n.length ∧ v.length = 9 * t ∧ NormTrip n) := by
  constructor
  · intro bytes
    refine ⟨?_, parseAscii_verts_length bytes, ?_⟩
    · show (flatVals vertsOf _).length = (flatVals normsOf _).length
      rw [flatVals_verts_length, flatVals_norms_length]
    · show NormTrip (flatVals normsOf _)
      rw [flatVals_norms_eq]
      exact normTrip_tripleBlocks _
  · intro bytes t v n ht hok
    unfold parseBinarySTL at hok
    rw [except_bind_ok] at hok
    obtain ⟨t', ht', hread⟩ := hok
    obtain rfl : t = t' := Except.ok.inj (ht.symm.trans ht')
    obtain ⟨ns, hns, hn, hv⟩ := readTris_shape bytes t 84 (v, n) hread
    simp only at hn hv
    have hnlen : n.length = 9 * t := by
      rw [hn, tripleBlocks_length, hns]
    exact ⟨by omega, hv, hn ▸ normTrip_tripleBlocks ns⟩

/-- Witness for C4: the binary invariants at the concrete scenario input. -/
theorem C4_mesh_invariants_witness :
    scenarioBinVerts.length = scenarioBinNorms.length ∧
    scenarioBinVerts.length = 9 * 2 ∧ NormTrip scenarioBinNorms :=
  C4_mesh_invariants.2 scenarioBinBytes 2 scenarioBinVerts scenarioBinNorms
    (by rfl) (by rfl)

/-- Claim C5 (code bug): the ASCII path's estimated progress
`20 + (k / 100000) · 50`, posted at every 10000th matched facet, reaches
105 > 100 at k = 170000, and already at k = 150000 posts 95, which the
later fixed post-parse value 90 then undercuts — so for large ASCII
inputs the emitted percents are neither bounded by 100 nor monotone,
contradicting the claim the spec states as a requirement. -/
theorem C5_progress_overflow :
    170000 % 10000 = 0 ∧ asciiProgressValue 170000 = 105 ∧
    (100 : ℚ) < asciiProgressValue 170000 ∧
    150000 % 10000 = 0 ∧ asciiProgressValue 150000 = 95 ∧
    postParsePercent < asciiProgressValue 150000 := by
  refine ⟨by norm_num, ?_, ?_, by norm_num, ?_, ?_⟩ <;>
    norm_num [asciiProgressValue, postParsePercent]

/-- Claim C6, counterexample: a 200-byte input whose first 80 bytes,
decoded, trimmed and lower-cased, do not start with `solid` (they start
with `x `) must be classified Binary by the claim, but the sniffer keys
on substring containment and classifies it ASCII. -/
theorem C6_counterexample :
    c6Bytes.length = 200 ∧
    prefixB "solid".toList (trimWs (lowerChars (utf8Replace (c6Bytes.take 80)))) = false ∧
    isAsciiSTL c6Bytes = true :=
  ⟨by decide, by decide, by decide⟩

/-- Claim C6 (amended): for every input (no length-200 threshold exists
in the code), the sniffer classifies ASCII iff the first min(80, N)
bytes are valid UTF-8 (a decode fault classifies Binary — the header
decoding is fatal, not tolerant), their lower-cased decoding contains
the substring `solid` (not: starts with it), and, when N > 100, the
first min(1000, N) bytes (not 2000) decoded tolerantly contain `facet`
or `vertex` (case-sensitively). -/
theorem C6_sniffer :
    ∀ bytes : List Nat,
      isAsciiSTL bytes = true ↔
        ∃ hdr, utf8Decode? (bytes.take 80) = some hdr ∧
          containsTok (lowerChars hdr) "solid".toList = true ∧
          (100 < bytes.length →
            (containsTok (utf8Replace (bytes.take (min 1000 bytes.length)))
                "facet".toList = true ∨
              containsTok (utf8Replace (bytes.take (min 1000 bytes.length)))
                "vertex".toList = true)) :=
  isAscii_iff

/-- Witness for C6: the characterization instantiated at the concrete
200-byte input, whose ASCII classification it certifies. -/
theorem C6_sniffer_witness : isAsciiSTL c6Bytes = true :=
  (C6_sniffer c6Bytes).mpr ⟨_, by rfl, by decide, fun _ => Or.inl (by decide)⟩

/-- Claim C7, counterexample: the single-byte input `[0]` is shorter
than 200 bytes, so the claim classifies it ASCII; the sniffer classifies
it Binary (no `solid` in its header). -/
theorem C7_counterexample :
    ([0] : List Nat).length < 200 ∧ isAsciiSTL [0] = false :=
  ⟨by decide, by decide⟩

/-- Claim C7 (amended): inputs shorter than 200 bytes are not
unconditionally ASCII; they are classified by the same content rules as
all inputs — ASCII iff the first min(80, N) bytes are valid UTF-8 whose
lower-cased decoding contains `solid` and, when N > 100, the first
min(1000, N) bytes contain `facet` or `vertex`. -/
theorem C7_short_inputs :
    ∀ bytes : List Nat, bytes.length < 200 →
      (isAsciiSTL bytes = true ↔
        ∃ hdr, utf8Decode? (bytes.take 80) = some hdr ∧
          containsTok (lowerChars hdr) "solid".toList = true ∧
          (100 < bytes.length →
            (containsTok (utf8Replace (bytes.take (min 1000 bytes.length)))
                "facet".toList = true ∨
              containsTok (utf8Replace (bytes.take (min 1000 bytes.length)))
                "vertex".toList = true))) :=
  fun bytes _ => isAscii_iff bytes

/-- Witness for C7: the short input `solid t` (7 bytes) is classified
ASCII because its header contains `solid`. -/
theorem C7_short_inputs_witness : isAsciiSTL (strBytes "solid t") = true :=
  (C7_short_inputs (strBytes "solid t") (by decide)).mpr
    ⟨_, by rfl, by decide, fun hc => absurd hc (by decide)⟩

/-- Claim C8: the empty input is classified Binary, the header read at
offset 80 immediately leaves the buffer's bounds, and the worker posts
the terminal error event — never a Success, with or without empty
buffers.  (In the spec's taxonomy the empty-input condition is the
`InvalidInput` reason; the code surfaces it as the RangeError of the
out-of-bounds DataView read.) -/
theorem C8_empty_input : workerDecode [] = .error .rangeErr := by rfl

/-- Claim C9, counterexample: a mesh whose first vertex coordinate is
the signaling-NaN pattern `0x7F800001` (2139095041) decodes, at value
level, to a buffer whose first word is the quieted `0x7FC00001`
(2143289345) — not bit-identical to the encoded mesh, so the claim's
universal bit-identity fails on NaN-containing records. -/
theorem C9_counterexample :
    parseBinarySTLval (encodeBinarySTL (List.replicate 80 0) [snanRecord]) =
      .ok ([2143289345, 0, 0, 0, f32ofNat 1, 0, 0, 0, f32ofNat 1],
        flatRecNorms [snanRecord]) ∧
    flatRecVerts [snanRecord] =
      [2139095041, 0, 0, 0, f32ofNat 1, 0, 0, 0, f32ofNat 1] ∧
    (2143289345 : Nat) ≠ 2139095041 :=
  ⟨by rfl, by rfl, by decide⟩

/-- Claim C9 (amended): round-trip — encoding any mesh with the
per-triangle normal-triplication invariant (equivalently: any record
list, under an arbitrary 80-byte header and arbitrary attribute bytes)
into the binary STL layout and decoding it with the binary decoder
returns the vertex and normal buffers bit-identically, **provided no
word is a signaling-NaN encoding** (every word is fixed by the engine's
float32→float64→float32 NaN canonicalization).  For signaling-NaN
payloads ECMA-262 leaves the stored encoding implementation-chosen and
mainstream engines quiet them, so bit-identity cannot be promised. -/
theorem C9_roundtrip_canon :
    ∀ (header : List Nat) (tris : List BinRecord),
      header.length = 80 → tris.length < 2 ^ 32 →
      (∀ r ∈ tris, r.wordsLT) → (∀ r ∈ tris, r.wordsCanon) →
      parseBinarySTLval (encodeBinarySTL header tris) =
        .ok (flatRecVerts tris, flatRecNorms tris) ∧
      flatRecNorms tris = tripleBlocks (tris.map fun r => (r.nx, r.ny, r.nz)) := by
  intro header tris hh ht hw hc
  refine ⟨?_, flatRecNorms_eq tris⟩
  unfold parseBinarySTLval
  rw [parseBinary_encode header tris hh ht hw]
  simp only [Except.map]
  rw [flatRecVerts_canon tris hc, flatRecNorms_canon tris hc]

/-- Witness for C9: the value-level round-trip at a concrete
one-triangle mesh of ordinary (non-NaN) words. -/
theorem C9_roundtrip_canon_witness :
    parseBinarySTLval (encodeBinarySTL (List.replicate 80 0)
        [⟨0, 0, f32ofNat 1, f32ofNat 1, 0, 0, 0, f32ofNat 1, 0, 0, 0, f32ofNat 1, 7, 9⟩]) =
      .ok (flatRecVerts
          [⟨0, 0, f32ofNat 1, f32ofNat 1, 0, 0, 0, f32ofNat 1, 0, 0, 0, f32ofNat 1, 7, 9⟩],
        flatRecNorms
          [⟨0, 0, f32ofNat 1, f32ofNat 1, 0, 0, 0, f32ofNat 1, 0, 0, 0, f32ofNat 1, 7, 9⟩]) :=
  (C9_roundtrip_canon (List.replicate 80 0)
    [⟨0, 0, f32ofNat 1, f32ofNat 1, 0, 0, 0, f32ofNat 1, 0, 0, 0, f32ofNat 1, 7, 9⟩]
    (by decide) (by decide) (by decide) (by decide)).1

/-- Claim C10: the ASCII path is total — every input the sniffer
classifies as ASCII (including non-STL text that merely contains
`solid`) decodes to the terminal Success message with format ASCII and
triangleCount the number of pattern matches (possibly zero, with empty
buffers), never an error event. -/
theorem C10_ascii_total :
    ∀ bytes : List Nat, isAsciiSTL bytes = true →
      workerDecode bytes =
        .ok ⟨.asciiD (parseAsciiSTL bytes).1 (parseAsciiSTL bytes).2,
          (parseAsciiSTL bytes).1.length / 3,
          (asciiScan (utf8Replace bytes)).length, "ASCII".toList⟩ := by
  intro bytes h
  rw [workerDecode_ascii bytes h, parseAscii_tri_count]

/-- Witness for C10: the non-STL seven-byte text `solid x` is
ASCII-classified and decodes to Success with zero triangles. -/
theorem C10_ascii_total_witness :
    workerDecode (strBytes "solid x") =
      .ok ⟨.asciiD (parseAsciiSTL (strBytes "solid x")).1
          (parseAsciiSTL (strBytes "solid x")).2,
        (parseAsciiSTL (strBytes "solid x")).1.length / 3,
        (asciiScan (utf8Replace (strBytes "solid x"))).length, "ASCII".toList⟩ :=
  C10_ascii_total (strBytes "solid x") (by decide)

end STLW
